import Mathlib

/-!
Verification of the pruning module (`cam/sgnmt/blocks/pruning.py`) and of the
n-gram predictor module (`cam/sgnmt/predictors/ngram.py`).

Shallow embedding conventions:
* numpy float arrays are modelled over `ℚ`; a numpy array is either a 1-D
  vector or a 2-D matrix, carried with its shape and a total entry function
  (reads outside the shape never occur in the verified scenarios);
* the Theano parameter dictionary (`params_dict`) is a total map from matrix
  names to arrays; `get_value`/`set_value` become function read/update;
* Python lists become Lean lists, `None`-able attributes become `Option`;
* `np.argsort(m, None)` (flattened argsort) is modelled as a stable merge
  sort of all index pairs by entry value; numpy's default quicksort leaves
  the relative order of equal keys unspecified, the stable sort is one
  admissible refinement (no claim below depends on the order of ties).
-/

/-- `INF_DIST = 10000.0` (pruning.py line 22). -/
def INF_DIST : ℚ := 10000

/-- A numpy array: 1-D vector or 2-D matrix, with shape and entries. -/
inductive NpArray where
  | vec (n : ℕ) (v : ℕ → ℚ)
  | mtx (r c : ℕ) (m : ℕ → ℕ → ℚ)

/-- `mat.shape[dim]`; dimensions outside the rank are a numpy `IndexError`,
modelled as 0 (never hit in the verified scenarios). -/
def NpArray.shapeAt : NpArray → ℤ → ℕ
  | .vec n _, d => if d = 0 then n else 0
  | .mtx r c _, d => if d = 0 then r else if d = 1 then c else 0

/-- Read the entry of a slice along `dim` at slice-index `idx`; `other` is the
position inside the slice.  For a vector the slice is the single cell `idx`
(numpy 1-D indexing ignores `dim`, as does `set_zero_in_mat`). -/
def NpArray.read : NpArray → ℤ → ℕ → ℕ → ℚ
  | .vec _ v, _, idx, _ => v idx
  | .mtx _ _ m, d, idx, other =>
    if d = 0 then m idx other else if d = 1 then m other idx else 0

/-- `set_zero_in_mat(mat, dim, idx)` (pruning.py lines 223-230): zero the row
(`dim = 0`), the column (`dim = 1`), or the single cell for a 1-D array; any
other `dim` falls through all branches and leaves the array unchanged. -/
def set_zero_in_mat : NpArray → ℤ → ℕ → NpArray
  | .vec n v, _, idx => .vec n (fun r => if r = idx then 0 else v r)
  | .mtx r c m, d, idx =>
    if d = 0 then .mtx r c (fun a b => if a = idx then 0 else m a b)
    else if d = 1 then .mtx r c (fun a b => if b = idx then 0 else m a b)
    else .mtx r c m

/-- The whole slice along `dim` at index `idx` is zero. -/
def ZeroAt (A : NpArray) (dim : ℤ) (idx : ℕ) : Prop :=
  ∀ other, A.read dim idx other = 0

/-- The Theano parameter dictionary: matrix name ↦ current value. -/
abbrev ParamsDict := String → NpArray

/-- `params_dict[name].set_value(mat)`. -/
def storeSet (p : ParamsDict) (name : String) (A : NpArray) : ParamsDict :=
  fun n => if n = name then A else p n

/-- `Connection` (pruning.py lines 232-238), fields in constructor order. -/
structure Connection where
  direction : String
  mat_name : String
  dim : ℤ
  start_idx : ℚ
deriving DecidableEq

/-- `int(mat.shape[conn.dim] * conn.start_idx)` guarded by
`conn.start_idx > 0.0` (pruning.py lines 134-136 and 164-167); Python `int()`
truncates toward zero, which is `Int.floor` on the nonnegative products
occurring here. -/
def connOffset (A : NpArray) (c : Connection) : ℕ :=
  if 0 < c.start_idx then (⌊(A.shapeAt c.dim : ℚ) * c.start_idx⌋).toNat else 0

/-- One activation batch after the reshape/transpose of
`register_activities` (line 67): `rows` neurons × `cols` observations. -/
structure ActivityBatch where
  rows : ℕ
  cols : ℕ
  x : ℕ → ℕ → ℚ

/-- `pt_sq_norms = (x ** 2).sum(axis=1)` (line 72). -/
def pt_sq_norms (b : ActivityBatch) (i : ℕ) : ℚ :=
  ∑ k ∈ Finset.range b.cols, (b.x i k) ^ 2

/-- `dists_sq = -2 * x.dot(x.T) + pt_sq_norms[:,None] + pt_sq_norms`
(lines 73-76): the Gram-matrix pairwise squared distances. -/
def dists_sq (b : ActivityBatch) (i j : ℕ) : ℚ :=
  (-2) * (∑ k ∈ Finset.range b.cols, b.x i k * b.x j k)
    + pt_sq_norms b i + pt_sq_norms b j

/-- `activities_sq = np.sum(np.square(x), axis=1)` (line 77). -/
def activities_sq (b : ActivityBatch) (i : ℕ) : ℚ :=
  ∑ k ∈ Finset.range b.cols, (b.x i k) ^ 2

/-- `PrunableLayer` (pruning.py lines 24-46).  `distsSize` / `maskSize`
record the (square) shapes of `dists` / `mask` when present; `step_size` is
the attribute created by `derive_step_size` (meaningless before the first
`prune` call, like the absent Python attribute).  The Theano variable is
framework glue and not modelled.  `__init__` overwrites `store_obs` with
`True` (line 45). -/
structure PrunableLayer where
  name : String
  trg_size : ℕ
  n_steps : ℕ
  maxout : Bool
  store_obs : Bool
  connections : List Connection
  dists : Option (ℕ → ℕ → ℚ)
  activities : Option (ℕ → ℚ)
  distsSize : ℕ
  mask : Option (ℕ → ℕ → ℚ)
  maskSize : ℕ
  step_size : ℤ
  n_obs : ℚ
  pruned_neurons : List ℕ
  obs : List ActivityBatch

/-- `reset` (lines 48-53). -/
def PrunableLayer.reset (l : PrunableLayer) : PrunableLayer :=
  { l with dists := none, activities := none, n_obs := 0, obs := [] }

/-- `initialize_mask` (lines 55-56): `np.triu(INF_DIST * np.ones_like(dists))`
— `INF_DIST` on and above the diagonal, zero below. -/
def PrunableLayer.initialize_mask (l : PrunableLayer) : PrunableLayer :=
  { l with mask := some (fun i j => if i ≤ j then INF_DIST else 0),
           maskSize := l.distsSize }

/-- `get_size` (lines 62-63): `mask.shape[0]`. -/
def PrunableLayer.get_size (l : PrunableLayer) : ℕ := l.maskSize

/-- `derive_step_size` (lines 58-61):
`int((get_size() - trg_size) / n_steps) + 1`.  The sources are Python 2, so
`/` on ints is floor division (`Int.fdiv`); for the nonnegative quotients
arising here `int()`-truncation under Python 3 coincides. -/
def PrunableLayer.derive_step_size (l : PrunableLayer) : PrunableLayer :=
  { l with step_size := Int.fdiv ((l.get_size : ℤ) - l.trg_size) l.n_steps + 1 }

/-- `count_unpruned_neurons` (lines 86-87). -/
def PrunableLayer.count_unpruned_neurons (l : PrunableLayer) : ℤ :=
  (l.get_size : ℤ) - l.pruned_neurons.length

/-- `register_activities` (lines 65-84).  The argument is the batch after
the `reshape((-1, shape[-1])).transpose()` of line 67. -/
def PrunableLayer.register_activities (l : PrunableLayer) (b : ActivityBatch) :
    PrunableLayer :=
  let newObs := if l.store_obs then l.obs ++ [b] else l.obs
  match l.dists with
  | none =>
    { l with dists := some (dists_sq b), activities := some (activities_sq b),
             distsSize := b.rows, n_obs := l.n_obs + b.cols, obs := newObs }
  | some d =>
    { l with dists := some (fun i j => d i j + dists_sq b i j),
             activities :=
               some (fun i => (l.activities.getD (fun _ => 0)) i
                               + activities_sq b i),
             n_obs := l.n_obs + b.cols, obs := newObs }

/-- `_get_activity_discounts_sum` (lines 148-149). -/
def get_activity_discounts_sum (act : ℕ → ℚ) (i j : ℕ) : ℚ := act i + act j

/-- `_get_activity_discounts_min` (lines 151-153). -/
def get_activity_discounts_min (act : ℕ → ℚ) (i j : ℕ) : ℚ :=
  min (act i) (act j)

/-- `get_activity_discounts = _get_activity_discounts_min` (line 155). -/
def get_activity_discounts : (ℕ → ℚ) → ℕ → ℕ → ℚ :=
  get_activity_discounts_min

/-- All flattened index pairs of an `n × n` matrix in row-major order. -/
def allPairs (n : ℕ) : List (ℕ × ℕ) :=
  (List.range n).flatMap (fun i => (List.range n).map (fun j => (i, j)))

/-- `np.unravel_index(np.argsort(search_mat, None), shape)` (lines 103-104):
all index pairs, sorted ascending by entry value (stable refinement of
numpy's unspecified tie order). -/
def argsortPairs (n : ℕ) (f : ℕ → ℕ → ℚ) : List (ℕ × ℕ) :=
  (allPairs n).mergeSort (fun a b => f a.1 a.2 ≤ f b.1 b.2)

/-- Mutable state of the selection loop of `prune` (lines 106-118). -/
structure ScanState where
  pruned : List ℕ
  mask : ℕ → ℕ → ℚ
  toDelete : List (ℕ × ℕ)

/-- `if activities[i] < activities[j]: i,j = j,i` (lines 111-112): the
survivor/deleted ordering of one selected pair. -/
def selectStepPair (act : ℕ → ℚ) (i j : ℕ) : ℕ × ℕ :=
  if act i < act j then (j, i) else (i, j)

/-- The `for i,j in zip(idxs[0], idxs[1])` loop of `prune` (lines 107-118):
skip pairs touching an already pruned neuron, otherwise order the pair by
activity, record it, prune its second component, mask its row and column,
and stop once `n_to_delete` pairs were recorded.  (The `min_score`/
`max_score` locals feed only the log message of lines 120-125.) -/
def selectLoop (act : ℕ → ℚ) (nToDelete : ℤ) :
    List (ℕ × ℕ) → ScanState → ScanState
  | [], s => s
  | (i, j) :: rest, s =>
    if i ∈ s.pruned ∨ j ∈ s.pruned then
      selectLoop act nToDelete rest s
    else
      let p := selectStepPair act i j
      let s' : ScanState :=
        { pruned := s.pruned ++ [p.2]
          mask := fun a b => if a = p.2 ∨ b = p.2 then INF_DIST else s.mask a b
          toDelete := s.toDelete ++ [p] }
      if nToDelete ≤ (s'.toDelete.length : ℤ) then s'
      else selectLoop act nToDelete rest s'

/-- Body of the connection loop of `_compensate_for_pruning_sum`
(lines 160-175) for one `(i, j)` pair and one connection.  (`mat_i` is dead
code in the source: its only use is the commented-out `add_in_mat` call.) -/
def compensateConn (l : PrunableLayer) (pair : ℕ × ℕ) (p : ParamsDict)
    (conn : Connection) : ParamsDict :=
  let mat := p conn.mat_name
  let mat_j := pair.2 + connOffset mat conn
  let mat2 :=
    if conn.direction = "in" ∧ l.maxout = true then
      set_zero_in_mat (set_zero_in_mat mat conn.dim (mat_j * 2))
            conn.dim (mat_j * 2 + 1)
    else
      set_zero_in_mat mat conn.dim mat_j
  storeSet p conn.mat_name mat2

/-- `_compensate_for_pruning_sum` (lines 157-175). -/
def compensate_for_pruning_sum (to_delete : List (ℕ × ℕ)) (l : PrunableLayer)
    (p : ParamsDict) : ParamsDict :=
  to_delete.foldl (fun acc pair => l.connections.foldl (compensateConn l pair) acc) p

/-- `compensate_for_pruning = _compensate_for_pruning_sum` (line 211; the
line-210 binding to the interpolation strategy is immediately overwritten). -/
def compensate_for_pruning : List (ℕ × ℕ) → PrunableLayer → ParamsDict → ParamsDict :=
  compensate_for_pruning_sum

/-- `n_to_delete = min(count_unpruned_neurons() - trg_size, step_size)`
(lines 93-94), evaluated after the lazy mask initialization. -/
def pruneNToDelete (l : PrunableLayer) : ℤ :=
  min (l.count_unpruned_neurons - l.trg_size) l.step_size

/-- Lines 90-92 of `prune`: lazy mask/step-size initialization. -/
def pruneInit (l : PrunableLayer) : PrunableLayer :=
  if l.mask.isNone then l.initialize_mask.derive_step_size else l

/-- `self.activities /= self.n_obs` (line 99): the normalized activities. -/
def pruneAct (l : PrunableLayer) : ℕ → ℚ :=
  fun i => (l.activities.getD (fun _ => 0)) i / l.n_obs

/-- `self.dists /= self.n_obs` (line 100): the normalized distances. -/
def pruneDists (l : PrunableLayer) : ℕ → ℕ → ℚ :=
  fun i j => (l.dists.getD (fun _ _ => 0)) i j / l.n_obs

/-- `search_mat = np.multiply(dists, activity_discounts) + mask`
(lines 101-102). -/
def pruneSearch (l : PrunableLayer) : ℕ → ℕ → ℚ :=
  fun i j => pruneDists l i j * get_activity_discounts (pruneAct l) i j
    + (l.mask.getD (fun _ _ => 0)) i j

/-- The selection loop of `prune` (lines 103-118) run on the sorted index
pairs, starting from the current pruned set and mask with an empty deletion
list. -/
def pruneScan (l : PrunableLayer) : ScanState :=
  selectLoop (pruneAct l) (pruneNToDelete l)
    (argsortPairs l.distsSize (pruneSearch l))
    ⟨l.pruned_neurons, l.mask.getD (fun _ _ => 0), []⟩

/-- `prune(params_dict)` (lines 89-125): lazy initialization, the
`n_to_delete <= 0` early-out with `reset`, otherwise in-place normalization,
pair selection and sum compensation.  (`min_score`/`max_score` feed only the
log message and are not modelled.) -/
def PrunableLayer.prune (l0 : PrunableLayer) (params : ParamsDict) :
    PrunableLayer × ParamsDict :=
  let l := pruneInit l0
  if pruneNToDelete l ≤ 0 then
    (l.reset, params)
  else
    ({ l with dists := some (pruneDists l), activities := some (pruneAct l),
              mask := some (pruneScan l).mask,
              pruned_neurons := (pruneScan l).pruned },
     compensate_for_pruning (pruneScan l).toDelete l params)

/-- `eps` of one connection in `sanity_check` (lines 131-142): the maximum
absolute value over the pruned (offset) rows/columns of the connection's
matrix.  `np.max` demands a nonempty selection; the fold from 0 agrees with
it whenever the selection is nonempty (all entries are absolute values).
A `dim` outside 0/1 would leave the Python local `eps` unbound; that branch
is modelled as 0 and never hit in the verified scenarios. -/
def sanityEps (A : NpArray) (dim : ℤ) (idxs : List ℕ) : ℚ :=
  match A with
  | .vec _ v => (idxs.map (fun i => |v i|)).foldl max 0
  | .mtx r c m =>
    if dim = 0 then
      ((idxs.map (fun i => (List.range c).map (fun b => |m i b|))).flatten).foldl max 0
    else if dim = 1 then
      ((idxs.map (fun i => (List.range r).map (fun a => |m a i|))).flatten).foldl max 0
    else 0

/-- `sanity_check(params_dict)` (lines 129-146), returning the logged global
maximum `geps`. -/
def PrunableLayer.sanity_check (l : PrunableLayer) (p : ParamsDict) : ℚ :=
  l.connections.foldl
    (fun geps conn =>
      let mat := p conn.mat_name
      let mat_idxs := l.pruned_neurons.map (· + connOffset mat conn)
      max (sanityEps mat conn.dim mat_idxs) geps)
    0

/-- Character-level model of Python `str.split()` with no argument: split on
runs of whitespace, dropping empty fields (leading/trailing whitespace is
irrelevant, so the preceding `line.strip()` needs no separate model). -/
def splitWSAux : List Char → List Char → List (List Char)
  | [], acc => if acc = [] then [] else [acc.reverse]
  | ch :: rest, acc =>
    if ch.isWhitespace then
      if acc = [] then splitWSAux rest []
      else acc.reverse :: splitWSAux rest []
    else splitWSAux rest (ch :: acc)

/-- `line.strip().split()` of `initialize_layers` (line 355). -/
def splitWS (s : String) : List String :=
  (splitWSAux s.toList []).map (fun cs => String.mk cs)

/-- Digit-string value, `none` on empty input or a non-digit. -/
def natOfDigits : List Char → Option ℕ
  | [] => none
  | cs => cs.foldl (fun acc c =>
      match acc with
      | none => none
      | some n => if c.isDigit then some (n * 10 + (c.toNat - 48)) else none)
      (some 0)

/-- Python `int(s)` on a decimal string with optional sign. -/
def pyParseInt (s : String) : Option ℤ :=
  match s.toList with
  | Char.ofNat 45 :: rest => (natOfDigits rest).map (fun n => -(n : ℤ))
  | cs => (natOfDigits cs).map (fun n => (n : ℤ))

/-- Python `float(s)` restricted to the plain decimal forms present in
layout files: `[-]digits[.digits]` (scientific notation, `inf`, `nan` are
not used by the configuration format). -/
def pyParseFloat (s : String) : Option ℚ :=
  let signed : ℚ × List Char :=
    match s.toList with
    | Char.ofNat 45 :: rest => (-1, rest)
    | cs => (1, cs)
  match (signed.2.splitOn (Char.ofNat 46)) with
  | [ip] => (natOfDigits ip).map (fun n => signed.1 * n)
  | [ip, fp] =>
    match natOfDigits ip, natOfDigits fp with
    | some a, some b =>
      some (signed.1 * ((a : ℚ) + (b : ℚ) / (10 : ℚ) ^ fp.length))
    | _, _ => none
  | _ => none

/-- Outcome of one layout-file line in `initialize_layers` (lines 352-366). -/
inductive LayoutLineResult where
  | blankLine                                -- `if not line.strip(): continue`
  | syntaxErr                                -- logged warning, line skipped
  | parsed (layer : String) (conn : Connection)
  | valueErr                                 -- int()/float() raised, uncaught
deriving DecidableEq

/-- One iteration of the layout-file loop (lines 352-366): blank lines and
lines whose field count is neither 4 nor 5 are skipped; otherwise
`Connection(parts[1], parts[2], int(parts[3]), float(parts[4]) or 0.0)`
is built for layer `parts[0]`. -/
def parse_layout_line (line : String) : LayoutLineResult :=
  let parts := splitWS line
  if parts.length = 0 then .blankLine
  else if ¬(parts.length = 4 ∨ parts.length = 5) then .syntaxErr
  else
    match parts with
    | [p0, p1, p2, p3] =>
      match pyParseInt p3 with
      | some d => .parsed p0 ⟨p1, p2, d, 0⟩
      | none => .valueErr
    | [p0, p1, p2, p3, p4] =>
      match pyParseInt p3, pyParseFloat p4 with
      | some d, some f => .parsed p0 ⟨p1, p2, d, f⟩
      | _, _ => .valueErr
    | _ => .syntaxErr  -- unreachable: length is 4 or 5 here

/-- Result of evaluating a Python expression: a value, or a `NameError`
carrying the unresolvable identifier. -/
inductive PyEvalResult (α : Type) where
  | ok (val : α)
  | nameError (missing : String)
deriving DecidableEq

/-- A value in scope while evaluating `KenLMPredictor.is_equal`: either a
predictor state (the method's arguments) or some module-level object
(class, module, function) irrelevant to the comparison. -/
inductive PyVal (σ : Type) where
  | stateVal (s : σ)
  | moduleObj (name : String)
deriving DecidableEq

/-- Module-level names of `cam/sgnmt/predictors/ngram.py` after its imports
(lines 10-24; the guarded `srilm`/`kenlm` imports bind at most these). -/
def ngram_module_globals : List String :=
  ["UnboundedVocabularyPredictor", "utils", "math",
   "readLM", "initLM", "getNgramProb", "getIndexForWord", "howManyNgrams",
   "kenlm", "SRILMPredictor", "KenLMPredictor"]

/-- Python builtins that name resolution falls back to (the relevant point
is only that `state` is not among them). -/
def py_builtin_names : List String :=
  ["abs", "all", "any", "bool", "dict", "enumerate", "filter", "float",
   "int", "len", "list", "map", "max", "min", "range", "set", "sorted",
   "str", "sum", "tuple", "zip", "True", "False", "None", "isinstance",
   "getattr", "setattr", "print", "type", "open", "repr", "hash", "id",
   "iter", "next", "object", "super", "Exception", "NameError",
   "ValueError", "ImportError"]

/-- Python name resolution for a name used inside `is_equal`: locals first,
then module globals, then builtins (globals/builtins resolve to opaque
module objects). -/
def pyResolve (σ : Type) (locals : List (String × PyVal σ)) (n : String) :
    Option (PyVal σ) :=
  match locals.find? (fun e => e.1 = n) with
  | some e => some e.2
  | none =>
    match (ngram_module_globals ++ py_builtin_names).find? (fun g => g = n) with
    | some g => some (.moduleObj g)
    | none => none

/-- `KenLMPredictor.is_equal(self, state1, state2)` (ngram.py lines 163-164):
its body is `return state == state2`.  Python evaluates the left operand
name `state` first; the locals are `self`, `state1`, `state2`. -/
def KenLMPredictor_is_equal {σ : Type} [DecidableEq σ] (self state1 state2 : σ) :
    PyEvalResult Bool :=
  let locals : List (String × PyVal σ) :=
    [("self", .stateVal self), ("state1", .stateVal state1),
     ("state2", .stateVal state2)]
  match pyResolve σ locals "state" with
  | none => .nameError "state"
  | some a =>
    match pyResolve σ locals "state2" with
    | none => .nameError "state2"
    | some b => .ok (decide (a = b))

/-! ### Distance accumulator: symmetry and non-negativity (C7) -/

theorem dists_sq_symm (b : ActivityBatch) (i j : ℕ) :
    dists_sq b i j = dists_sq b j i := by
  unfold dists_sq
  have h : ∑ k ∈ Finset.range b.cols, b.x i k * b.x j k
      = ∑ k ∈ Finset.range b.cols, b.x j k * b.x i k :=
    Finset.sum_congr rfl (fun k _ => by ring)
  rw [h]; ring

theorem dists_sq_eq_sum_sq (b : ActivityBatch) (i j : ℕ) :
    dists_sq b i j = ∑ k ∈ Finset.range b.cols, (b.x i k - b.x j k) ^ 2 := by
  unfold dists_sq pt_sq_norms
  rw [Finset.mul_sum, ← Finset.sum_add_distrib, ← Finset.sum_add_distrib]
  exact Finset.sum_congr rfl (fun k _ => by ring)

theorem dists_sq_nonneg (b : ActivityBatch) (i j : ℕ) : 0 ≤ dists_sq b i j := by
  rw [dists_sq_eq_sum_sq]
  exact Finset.sum_nonneg (fun k _ => sq_nonneg _)

/-- Invariant carried through `register_activities`: nonnegative observation
count, and a symmetric nonnegative accumulated distance matrix whenever one
exists. -/
def DistsInv (l : PrunableLayer) : Prop :=
  0 ≤ l.n_obs ∧ ∀ d, l.dists = some d → ∀ i j, d i j = d j i ∧ 0 ≤ d i j

theorem register_activities_distsInv (l : PrunableLayer) (b : ActivityBatch)
    (h : DistsInv l) : DistsInv (l.register_activities b) := by
  obtain ⟨hn, hd⟩ := h
  unfold PrunableLayer.register_activities
  cases hc : l.dists with
  | none =>
    refine ⟨by positivity, ?_⟩
    intro d hdd i j
    simp only [Option.some.injEq] at hdd
    subst hdd
    exact ⟨dists_sq_symm b i j, dists_sq_nonneg b i j⟩
  | some d0 =>
    refine ⟨by positivity, ?_⟩
    intro d hdd i j
    simp only [Option.some.injEq] at hdd
    subst hdd
    obtain ⟨hsym, hpos⟩ := hd d0 hc i j
    have hnn := dists_sq_nonneg b i j
    constructor
    · show d0 i j + dists_sq b i j = d0 j i + dists_sq b j i
      rw [hsym, dists_sq_symm]
    · show 0 ≤ d0 i j + dists_sq b i j
      linarith

theorem foldl_register_activities_distsInv (bs : List ActivityBatch) :
    ∀ l : PrunableLayer, DistsInv l →
      DistsInv (bs.foldl PrunableLayer.register_activities l) := by
  induction bs with
  | nil => intro l h; exact h
  | cons b rest ih =>
    intro l h
    exact ih _ (register_activities_distsInv l b h)

/-- C7: for every sequence of activation batches registered into a fresh
accumulator, the accumulated pairwise squared-distance matrix is symmetric
with nonnegative entries, and so is its normalization by the observation
count. -/
theorem registered_dists_symm_nonneg (l0 : PrunableLayer)
    (bs : List ActivityBatch) (h0 : l0.dists = none) (h1 : 0 ≤ l0.n_obs) :
    ∀ d, (bs.foldl PrunableLayer.register_activities l0).dists = some d →
      (∀ i j, d i j = d j i ∧ 0 ≤ d i j) ∧
      (∀ i j,
        d i j / (bs.foldl PrunableLayer.register_activities l0).n_obs
          = d j i / (bs.foldl PrunableLayer.register_activities l0).n_obs ∧
        0 ≤ d i j / (bs.foldl PrunableLayer.register_activities l0).n_obs) := by
  intro d hd
  have hinv : DistsInv l0 := ⟨h1, fun d' hd' => by rw [h0] at hd'; cases hd'⟩
  have hres := foldl_register_activities_distsInv bs l0 hinv
  obtain ⟨hn, hmat⟩ := hres
  have hij := fun i j => hmat d hd i j
  refine ⟨hij, fun i j => ?_⟩
  obtain ⟨hsym, hpos⟩ := hij i j
  exact ⟨by rw [hsym], div_nonneg hpos hn⟩

/-- A fresh two-neuron layer used by concrete witnesses. -/
def wFreshLayer : PrunableLayer :=
  ⟨"enc", 1, 1, false, true, [], none, none, 0, none, 0, 0, 0, [], []⟩

/-- A concrete one-batch observation list used by concrete witnesses. -/
def wBatches : List ActivityBatch := [⟨2, 1, fun i _ => (i : ℚ)⟩]

/-- Witness for C7 at a concrete batch list. -/
theorem registered_dists_symm_nonneg_witness :
    ∃ d, (wBatches.foldl PrunableLayer.register_activities wFreshLayer).dists
          = some d ∧ d 0 1 = d 1 0 ∧ 0 ≤ d 0 1 := by
  have h := registered_dists_symm_nonneg wFreshLayer wBatches rfl le_rfl
  exact ⟨_, rfl, (h _ rfl).1 0 1 |>.1, (h _ rfl).1 0 1 |>.2⟩

/-! ### Selection loop: counting and membership lemmas (C1, C2, C4, C5) -/

theorem selectLoop_cons (act : ℕ → ℚ) (n : ℤ) (i j : ℕ) (rest : List (ℕ × ℕ))
    (s : ScanState) :
    selectLoop act n ((i, j) :: rest) s =
      if i ∈ s.pruned ∨ j ∈ s.pruned then selectLoop act n rest s
      else
        let p := selectStepPair act i j
        let s' : ScanState :=
          ⟨s.pruned ++ [p.2],
           fun a b => if a = p.2 ∨ b = p.2 then INF_DIST else s.mask a b,
           s.toDelete ++ [p]⟩
        if n ≤ (s'.toDelete.length : ℤ) then s' else selectLoop act n rest s' := rfl

theorem selectStepPair_snd (act : ℕ → ℚ) (i j : ℕ) :
    (selectStepPair act i j).2 = i ∨ (selectStepPair act i j).2 = j := by
  unfold selectStepPair
  split <;> simp

theorem selectLoop_pruned_mono (act : ℕ → ℚ) (n : ℤ) (L : List (ℕ × ℕ)) :
    ∀ s : ScanState, ∀ x ∈ s.pruned, x ∈ (selectLoop act n L s).pruned := by
  induction L with
  | nil => intro s x hx; exact hx
  | cons hd rest ih =>
    intro s x hx
    obtain ⟨i, j⟩ := hd
    rw [selectLoop_cons]
    by_cases hmem : i ∈ s.pruned ∨ j ∈ s.pruned
    · rw [if_pos hmem]; exact ih s x hx
    · rw [if_neg hmem]
      set p := selectStepPair act i j with hp
      by_cases hbr : n ≤ ((s.toDelete ++ [p]).length : ℤ)
      · simp only [hbr, if_pos, List.mem_append]
        left; exact hx
      · simp only [hbr, if_neg, not_false_iff]
        exact ih _ x (by simp [List.mem_append]; left; exact hx)

theorem selectLoop_spec (act : ℕ → ℚ) (n : ℤ) (L : List (ℕ × ℕ)) :
    ∀ s : ScanState, ∃ new : List (ℕ × ℕ),
      (selectLoop act n L s).toDelete = s.toDelete ++ new ∧
      (selectLoop act n L s).pruned = s.pruned ++ new.map Prod.snd ∧
      ∀ q ∈ new, ∃ a b, (a, b) ∈ L ∧ q = selectStepPair act a b := by
  induction L with
  | nil => intro s; exact ⟨[], by simp [selectLoop], by simp [selectLoop], by simp⟩
  | cons hd rest ih =>
    intro s
    obtain ⟨i, j⟩ := hd
    rw [selectLoop_cons]
    by_cases hmem : i ∈ s.pruned ∨ j ∈ s.pruned
    · rw [if_pos hmem]
      obtain ⟨new, h1, h2, h3⟩ := ih s
      exact ⟨new, h1, h2, fun q hq => by
        obtain ⟨a, b, hab, hq2⟩ := h3 q hq
        exact ⟨a, b, List.mem_cons_of_mem _ hab, hq2⟩⟩
    · rw [if_neg hmem]
      set p := selectStepPair act i j with hp
      by_cases hbr : n ≤ ((s.toDelete ++ [p]).length : ℤ)
      · simp only [hbr, if_pos]
        exact ⟨[p], by simp, by simp, fun q hq => by
          simp at hq; subst hq
          exact ⟨i, j, List.mem_cons_self _ _, hp⟩⟩
      · simp only [hbr, if_neg, not_false_iff]
        obtain ⟨new, h1, h2, h3⟩ :=
          ih ⟨s.pruned ++ [p.2],
              fun a b => if a = p.2 ∨ b = p.2 then INF_DIST else s.mask a b,
              s.toDelete ++ [p]⟩
        refine ⟨p :: new, ?_, ?_, ?_⟩
        · simpa [List.append_assoc] using h1
        · simpa [List.append_assoc] using h2
        · intro q hq
          rcases List.mem_cons.mp hq with hq | hq
          · subst hq; exact ⟨i, j, List.mem_cons_self _ _, hp⟩
          · obtain ⟨a, b, hab, hq2⟩ := h3 q hq
            exact ⟨a, b, List.mem_cons_of_mem _ hab, hq2⟩

theorem selectLoop_nodup (act : ℕ → ℚ) (n : ℤ) (L : List (ℕ × ℕ)) :
    ∀ s : ScanState, s.pruned.Nodup → (selectLoop act n L s).pruned.Nodup := by
  induction L with
  | nil => intro s hs; exact hs
  | cons hd rest ih =>
    intro s hs
    obtain ⟨i, j⟩ := hd
    rw [selectLoop_cons]
    by_cases hmem : i ∈ s.pruned ∨ j ∈ s.pruned
    · rw [if_pos hmem]; exact ih s hs
    · rw [if_neg hmem]
      push_neg at hmem
      set p := selectStepPair act i j with hp
      have hpsnd : p.2 ∉ s.pruned := by
        rcases selectStepPair_snd act i j with h | h
        · rw [← hp] at h; rw [h]; exact hmem.1
        · rw [← hp] at h; rw [h]; exact hmem.2
      have hnd' : (s.pruned ++ [p.2]).Nodup := by
        simp [List.nodup_append, hs, hpsnd]
      by_cases hbr : n ≤ ((s.toDelete ++ [p]).length : ℤ)
      · simp only [hbr, if_pos]; exact hnd'
      · simp only [hbr, if_neg, not_false_iff]
        exact ih _ hnd'

theorem selectLoop_length_le (act : ℕ → ℚ) (n : ℤ) (L : List (ℕ × ℕ)) :
    ∀ s : ScanState, (s.toDelete.length : ℤ) < n →
      ((selectLoop act n L s).toDelete.length : ℤ) ≤ n := by
  induction L with
  | nil => intro s hs; exact le_of_lt hs
  | cons hd rest ih =>
    intro s hs
    obtain ⟨i, j⟩ := hd
    rw [selectLoop_cons]
    by_cases hmem : i ∈ s.pruned ∨ j ∈ s.pruned
    · rw [if_pos hmem]; exact ih s hs
    · rw [if_neg hmem]
      set p := selectStepPair act i j with hp
      by_cases hbr : n ≤ ((s.toDelete ++ [p]).length : ℤ)
      · simp only [hbr, if_pos]
        simp only [List.length_append, List.length_cons, List.length_nil] at hbr ⊢
        push_cast at hbr ⊢
        omega
      · simp only [hbr, if_neg, not_false_iff]
        apply ih
        push_neg at hbr
        exact hbr

theorem selectLoop_exhaust (act : ℕ → ℚ) (n : ℤ) (L : List (ℕ × ℕ)) :
    ∀ s : ScanState, ((selectLoop act n L s).toDelete.length : ℤ) < n →
      ∀ pr ∈ L, pr.1 ∈ (selectLoop act n L s).pruned ∨
                 pr.2 ∈ (selectLoop act n L s).pruned := by
  induction L with
  | nil => intro s _ pr hpr; cases hpr
  | cons hd rest ih =>
    intro s hlen pr hpr
    obtain ⟨i, j⟩ := hd
    rw [selectLoop_cons] at hlen ⊢
    by_cases hmem : i ∈ s.pruned ∨ j ∈ s.pruned
    · rw [if_pos hmem] at hlen ⊢
      rcases List.mem_cons.mp hpr with hpr | hpr
      · subst hpr
        rcases hmem with h | h
        · exact Or.inl (selectLoop_pruned_mono act n rest s _ h)
        · exact Or.inr (selectLoop_pruned_mono act n rest s _ h)
      · exact ih s hlen pr hpr
    · rw [if_neg hmem] at hlen ⊢
      set p := selectStepPair act i j with hp
      by_cases hbr : n ≤ ((s.toDelete ++ [p]).length : ℤ)
      · simp only [hbr, if_pos] at hlen
        simp only [List.length_append, List.length_cons, List.length_nil] at hlen hbr
        push_cast at hlen hbr
        omega
      · simp only [hbr, if_neg, not_false_iff] at hlen ⊢
        set s' : ScanState :=
          ⟨s.pruned ++ [p.2],
           fun a b => if a = p.2 ∨ b = p.2 then INF_DIST else s.mask a b,
           s.toDelete ++ [p]⟩ with hs'
        rcases List.mem_cons.mp hpr with hpr | hpr
        · subst hpr
          have hmem' : p.2 ∈ s'.pruned := by simp [hs']
          have := selectLoop_pruned_mono act n rest s' _ hmem'
          rcases selectStepPair_snd act i j with h | h <;> rw [← hp] at h
          · exact Or.inl (by rw [← h]; exact this)
          · exact Or.inr (by rw [← h]; exact this)
        · exact ih s' hlen pr hpr

theorem mem_allPairs (a b n : ℕ) (ha : a < n) (hb : b < n) :
    (a, b) ∈ allPairs n :=
  List.mem_flatMap.mpr ⟨a, List.mem_range.mpr ha,
    List.mem_map.mpr ⟨b, List.mem_range.mpr hb, rfl⟩⟩

/-- The selection loop of `prune`, started on a permutation of all index
pairs with an empty deletion list, records exactly `n` pairs whenever
`1 ≤ n ≤ size - |already pruned|`: candidate pairs can never run out
before `n_to_delete` is reached, because every diagonal pair `(u, u)` of an
unpruned `u` is itself eligible. -/
theorem selectLoop_count (act : ℕ → ℚ) (n : ℤ) (sz : ℕ) (L : List (ℕ × ℕ))
    (s : ScanState) (hL : L.Perm (allPairs sz)) (h0 : s.toDelete = [])
    (hnd : s.pruned.Nodup) (hn1 : 1 ≤ n)
    (hn2 : n ≤ (sz : ℤ) - s.pruned.length) :
    ((selectLoop act n L s).toDelete.length : ℤ) = n := by
  have hle : ((selectLoop act n L s).toDelete.length : ℤ) ≤ n := by
    apply selectLoop_length_le
    rw [h0]
    simpa using hn1
  by_contra hne
  have hlt : ((selectLoop act n L s).toDelete.length : ℤ) < n :=
    lt_of_le_of_ne hle hne
  have hcov := selectLoop_exhaust act n L s hlt
  have hall : ∀ u, u < sz → u ∈ (selectLoop act n L s).pruned := by
    intro u hu
    have hmem : (u, u) ∈ L := (hL.mem_iff).mpr (mem_allPairs u u sz hu hu)
    rcases hcov (u, u) hmem with h | h <;> exact h
  have hndres := selectLoop_nodup act n L s hnd
  have hsub : Finset.range sz ⊆ (selectLoop act n L s).pruned.toFinset := by
    intro u hu
    rw [List.mem_toFinset]
    exact hall u (Finset.mem_range.mp hu)
  have hcard : sz ≤ (selectLoop act n L s).pruned.length := by
    calc sz = (Finset.range sz).card := (Finset.card_range sz).symm
    _ ≤ (selectLoop act n L s).pruned.toFinset.card := Finset.card_le_card hsub
    _ = (selectLoop act n L s).pruned.length := List.toFinset_card_of_nodup hndres
  obtain ⟨new, h1, h2, _⟩ := selectLoop_spec act n L s
  rw [h0] at h1
  simp only [List.nil_append] at h1
  have hplen : (selectLoop act n L s).pruned.length
      = s.pruned.length + (selectLoop act n L s).toDelete.length := by
    rw [h2, List.length_append, List.length_map, h1]
  omega

/-! ### `set_zero_in_mat` algebra (C1, C2) -/

theorem shapeAt_set_zero (A : NpArray) (dw : ℤ) (iw : ℕ) (d : ℤ) :
    (set_zero_in_mat A dw iw).shapeAt d = A.shapeAt d := by
  cases A with
  | vec n v => rfl
  | mtx r c m =>
    simp only [set_zero_in_mat]
    split_ifs <;> rfl

theorem connOffset_eq_of_shapeAt (A B : NpArray) (c : Connection)
    (h : A.shapeAt c.dim = B.shapeAt c.dim) : connOffset A c = connOffset B c := by
  unfold connOffset
  rw [h]

theorem read_set_zero_cases (A : NpArray) (dw : ℤ) (iw : ℕ) (d : ℤ) (i o : ℕ) :
    (set_zero_in_mat A dw iw).read d i o = A.read d i o ∨
      (set_zero_in_mat A dw iw).read d i o = 0 := by
  cases A with
  | vec n v =>
    simp only [set_zero_in_mat, NpArray.read]
    split_ifs <;> simp
  | mtx r c m =>
    simp only [set_zero_in_mat]
    split_ifs
    all_goals simp only [NpArray.read]
    all_goals split_ifs <;> simp

theorem read_set_zero_ne (A : NpArray) (d : ℤ) (iw i : ℕ) (o : ℕ) (h : i ≠ iw) :
    (set_zero_in_mat A d iw).read d i o = A.read d i o := by
  cases A with
  | vec n v =>
    simp only [set_zero_in_mat, NpArray.read]
    rw [if_neg h]
  | mtx r c m =>
    simp only [set_zero_in_mat]
    split_ifs
    all_goals simp only [NpArray.read]
    all_goals split_ifs <;> simp_all

theorem zeroAt_set_zero (A : NpArray) (d : ℤ) (i : ℕ) :
    ZeroAt (set_zero_in_mat A d i) d i := by
  intro o
  cases A with
  | vec n v => simp [set_zero_in_mat, NpArray.read]
  | mtx r c m =>
    simp only [set_zero_in_mat]
    split_ifs
    all_goals simp only [NpArray.read]
    all_goals split_ifs <;> simp_all

theorem zeroAt_of_read_cases (A B : NpArray) (d : ℤ) (i : ℕ)
    (hc : ∀ o, B.read d i o = A.read d i o ∨ B.read d i o = 0)
    (h : ZeroAt A d i) : ZeroAt B d i := by
  intro o
  rcases hc o with h2 | h2
  · rw [h2]; exact h o
  · exact h2

/-- The slice indices `compensateConn` zeroes in its connection's matrix for
an (offset) deleted index `mj`: the two maxout sub-indices for an inbound
connection of a maxout layer, the index itself otherwise (mirrors the
branch at pruning.py lines 170-174). -/
def compTargets (l : PrunableLayer) (c : Connection) (mj : ℕ) : List ℕ :=
  if c.direction = "in" ∧ l.maxout = true then [mj * 2, mj * 2 + 1] else [mj]

theorem compensateConn_apply_other (l : PrunableLayer) (q : ℕ × ℕ)
    (p : ParamsDict) (c : Connection) (n : String) (h : n ≠ c.mat_name) :
    compensateConn l q p c n = p n := by
  simp [compensateConn, storeSet, h]

theorem compensateConn_shapeAt (l : PrunableLayer) (q : ℕ × ℕ)
    (p : ParamsDict) (c : Connection) (n : String) (d : ℤ) :
    (compensateConn l q p c n).shapeAt d = (p n).shapeAt d := by
  by_cases h : n = c.mat_name
  · subst h
    simp only [compensateConn, storeSet, if_pos]
    split_ifs <;> simp [shapeAt_set_zero]
  · rw [compensateConn_apply_other l q p c n h]

theorem compensateConn_read_cases (l : PrunableLayer) (q : ℕ × ℕ)
    (p : ParamsDict) (c : Connection) (n : String) (d : ℤ) (i o : ℕ) :
    (compensateConn l q p c n).read d i o = (p n).read d i o ∨
      (compensateConn l q p c n).read d i o = 0 := by
  by_cases h : n = c.mat_name
  · subst h
    simp only [compensateConn, storeSet, if_pos]
    split_ifs
    · rcases read_set_zero_cases (set_zero_in_mat (p c.mat_name) c.dim
          ((q.2 + connOffset (p c.mat_name) c) * 2)) c.dim
          ((q.2 + connOffset (p c.mat_name) c) * 2 + 1) d i o with h1 | h1
      · rcases read_set_zero_cases (p c.mat_name) c.dim
            ((q.2 + connOffset (p c.mat_name) c) * 2) d i o with h2 | h2
        · left; rw [h1, h2]
        · right; rw [h1, h2]
      · right; exact h1
    · exact read_set_zero_cases _ _ _ _ _ _
  · rw [compensateConn_apply_other l q p c n h]
    left; rfl

theorem compensateConn_frame (l : PrunableLayer) (q : ℕ × ℕ) (p : ParamsDict)
    (c : Connection) (n : String) (d : ℤ) (i o : ℕ)
    (h : c.mat_name = n →
      c.dim = d ∧ i ∉ compTargets l c (q.2 + connOffset (p n) c)) :
    (compensateConn l q p c n).read d i o = (p n).read d i o := by
  by_cases hn : n = c.mat_name
  · subst hn
    obtain ⟨hdim, hi⟩ := h rfl
    subst hdim
    simp only [compensateConn, storeSet, if_pos]
    unfold compTargets at hi
    split_ifs with hmx
    · rw [if_pos hmx] at hi
      simp only [List.mem_cons, List.mem_singleton, not_or] at hi
      rw [read_set_zero_ne _ _ _ _ _ hi.2.1, read_set_zero_ne _ _ _ _ _ hi.1]
    · rw [if_neg hmx] at hi
      simp only [List.mem_singleton] at hi
      rw [read_set_zero_ne _ _ _ _ _ hi]
  · rw [compensateConn_apply_other l q p c n hn]

theorem compensateConn_sets (l : PrunableLayer) (q : ℕ × ℕ) (p : ParamsDict)
    (c : Connection) :
    ∀ t ∈ compTargets l c (q.2 + connOffset (p c.mat_name) c),
      ZeroAt (compensateConn l q p c c.mat_name) c.dim t := by
  intro t ht
  unfold compTargets at ht
  simp only [compensateConn, storeSet, if_pos]
  split_ifs with hmx
  · rw [if_pos hmx] at ht
    simp only [List.mem_cons, List.mem_singleton] at ht
    rcases ht with ht | ht
    · subst ht
      apply zeroAt_of_read_cases _ _ _ _
        (fun o => read_set_zero_cases _ _ _ _ _ o)
      exact zeroAt_set_zero _ _ _
    · rcases ht with ht | hf
      · subst ht; exact zeroAt_set_zero _ _ _
      · cases hf
  · rw [if_neg hmx] at ht
    simp only [List.mem_singleton] at ht
    subst ht
    exact zeroAt_set_zero _ _ _

/-! ### Folding compensation over connections and deletion pairs -/

theorem connsFold_shapeAt (l : PrunableLayer) (q : ℕ × ℕ)
    (cs : List Connection) :
    ∀ p : ParamsDict, ∀ n d,
      ((cs.foldl (compensateConn l q) p) n).shapeAt d = (p n).shapeAt d := by
  induction cs with
  | nil => intro p n d; rfl
  | cons c cs ih =>
    intro p n d
    rw [List.foldl_cons, ih]
    exact compensateConn_shapeAt l q p c n d

theorem connsFold_read_cases (l : PrunableLayer) (q : ℕ × ℕ)
    (cs : List Connection) :
    ∀ p : ParamsDict, ∀ n d i o,
      ((cs.foldl (compensateConn l q) p) n).read d i o = (p n).read d i o ∨
        ((cs.foldl (compensateConn l q) p) n).read d i o = 0 := by
  induction cs with
  | nil => intro p n d i o; left; rfl
  | cons c cs ih =>
    intro p n d i o
    rw [List.foldl_cons]
    rcases ih (compensateConn l q p c) n d i o with h | h
    · rw [h]; exact compensateConn_read_cases l q p c n d i o
    · right; exact h

theorem connsFold_zeroAt (l : PrunableLayer) (q : ℕ × ℕ)
    (cs : List Connection) (p : ParamsDict) (n : String) (d : ℤ) (i : ℕ)
    (h : ZeroAt (p n) d i) :
    ZeroAt ((cs.foldl (compensateConn l q) p) n) d i :=
  zeroAt_of_read_cases _ _ _ _ (fun o => connsFold_read_cases l q cs p n d i o) h

theorem connsFold_frame (l : PrunableLayer) (q : ℕ × ℕ)
    (cs : List Connection) :
    ∀ p : ParamsDict, ∀ n d i,
      (∀ c ∈ cs, c.mat_name = n →
        c.dim = d ∧ i ∉ compTargets l c (q.2 + connOffset (p n) c)) →
      ∀ o, ((cs.foldl (compensateConn l q) p) n).read d i o = (p n).read d i o := by
  induction cs with
  | nil => intro p n d i _ o; rfl
  | cons c cs ih =>
    intro p n d i h o
    rw [List.foldl_cons]
    have hoff : ∀ c2 : Connection,
        connOffset (compensateConn l q p c n) c2 = connOffset (p n) c2 :=
      fun c2 => connOffset_eq_of_shapeAt _ _ _ (compensateConn_shapeAt l q p c n c2.dim)
    rw [ih (compensateConn l q p c) n d i ?_ o]
    · exact compensateConn_frame l q p c n d i o
        (fun hn => h c (List.mem_cons_self c cs) hn)
    · intro c2 hc2 hn
      rw [hoff c2]
      exact h c2 (List.mem_cons_of_mem c hc2) hn

theorem connsFold_sets (l : PrunableLayer) (q : ℕ × ℕ) (cs : List Connection)
    (c : Connection) :
    ∀ p : ParamsDict, c ∈ cs →
      ∀ t ∈ compTargets l c (q.2 + connOffset (p c.mat_name) c),
        ZeroAt ((cs.foldl (compensateConn l q) p) c.mat_name) c.dim t := by
  induction cs with
  | nil => intro p hc; cases hc
  | cons c0 cs ih =>
    intro p hc t ht
    rw [List.foldl_cons]
    rcases List.mem_cons.mp hc with hc | hc
    · subst hc
      exact connsFold_zeroAt l q cs _ _ _ _ (compensateConn_sets l q p c t ht)
    · apply ih (compensateConn l q p c0) hc
      rwa [connOffset_eq_of_shapeAt _ _ _ (compensateConn_shapeAt l q p c0 c.mat_name c.dim)]

theorem compSum_shapeAt (l : PrunableLayer) (td : List (ℕ × ℕ)) :
    ∀ p : ParamsDict, ∀ n d,
      ((compensate_for_pruning_sum td l p) n).shapeAt d = (p n).shapeAt d := by
  induction td with
  | nil => intro p n d; rfl
  | cons q td ih =>
    intro p n d
    unfold compensate_for_pruning_sum at ih ⊢
    rw [List.foldl_cons, ih]
    exact connsFold_shapeAt l q l.connections p n d

theorem compSum_read_cases (l : PrunableLayer) (td : List (ℕ × ℕ)) :
    ∀ p : ParamsDict, ∀ n d i o,
      ((compensate_for_pruning_sum td l p) n).read d i o = (p n).read d i o ∨
        ((compensate_for_pruning_sum td l p) n).read d i o = 0 := by
  induction td with
  | nil => intro p n d i o; left; rfl
  | cons q td ih =>
    intro p n d i o
    unfold compensate_for_pruning_sum at ih ⊢
    rw [List.foldl_cons]
    rcases ih (l.connections.foldl (compensateConn l q) p) n d i o with h | h
    · rw [h]; exact connsFold_read_cases l q l.connections p n d i o
    · right; exact h

theorem compSum_zeroAt (l : PrunableLayer) (td : List (ℕ × ℕ)) (p : ParamsDict)
    (n : String) (d : ℤ) (i : ℕ) (h : ZeroAt (p n) d i) :
    ZeroAt ((compensate_for_pruning_sum td l p) n) d i :=
  zeroAt_of_read_cases _ _ _ _ (fun o => compSum_read_cases l td p n d i o) h

theorem compSum_frame (l : PrunableLayer) (td : List (ℕ × ℕ)) :
    ∀ p : ParamsDict, ∀ n d i,
      (∀ q ∈ td, ∀ c ∈ l.connections, c.mat_name = n →
        c.dim = d ∧ i ∉ compTargets l c (q.2 + connOffset (p n) c)) →
      ∀ o, ((compensate_for_pruning_sum td l p) n).read d i o = (p n).read d i o := by
  induction td with
  | nil => intro p n d i _ o; rfl
  | cons q td ih =>
    intro p n d i h o
    unfold compensate_for_pruning_sum at ih ⊢
    rw [List.foldl_cons]
    have hoff : ∀ c2 : Connection,
        connOffset ((l.connections.foldl (compensateConn l q) p) n) c2
          = connOffset (p n) c2 :=
      fun c2 => connOffset_eq_of_shapeAt _ _ _ (connsFold_shapeAt l q l.connections p n c2.dim)
    rw [ih (l.connections.foldl (compensateConn l q) p) n d i ?_ o]
    · exact connsFold_frame l q l.connections p n d i
        (fun c hc hn => h q (List.mem_cons_self q td) c hc hn) o
    · intro q2 hq2 c hc hn
      rw [hoff c]
      exact h q2 (List.mem_cons_of_mem q hq2) c hc hn

theorem compSum_sets (l : PrunableLayer) (td : List (ℕ × ℕ)) (q : ℕ × ℕ)
    (c : Connection) :
    ∀ p : ParamsDict, q ∈ td → c ∈ l.connections →
      ∀ t ∈ compTargets l c (q.2 + connOffset (p c.mat_name) c),
        ZeroAt ((compensate_for_pruning_sum td l p) c.mat_name) c.dim t := by
  induction td with
  | nil => intro p hq; cases hq
  | cons q0 td ih =>
    intro p hq hc t ht
    unfold compensate_for_pruning_sum at ih ⊢
    rw [List.foldl_cons]
    rcases List.mem_cons.mp hq with hq | hq
    · subst hq
      exact compSum_zeroAt l td _ _ _ _
        (connsFold_sets l q l.connections c p hc t ht)
    · apply ih (l.connections.foldl (compensateConn l q0) p) hq hc
      rwa [connOffset_eq_of_shapeAt _ _ _
        (connsFold_shapeAt l q0 l.connections p c.mat_name c.dim)]

/-! ### C1: sum-compensation zeroing -/

/-- C1: under the sum compensation strategy, for every (survivor, deleted)
pair `(i, j)` of the deletion list and every connection of the layer, the
deleted neuron's slice along the connection's axis — at index `j` plus the
connection's offset (fractional start position scaled by that axis's size)
— is set entirely to zero; for an inbound connection of a maxout layer the
two physical sub-indices `2·(j+offset)` and `2·(j+offset)+1` are zeroed
instead, and the sub-indices `2·(k+offset)`, `2·(k+offset)+1` of every
neuron `k` not in the deletion list are left unchanged (stated for a matrix
named by no other connection of the layer). -/
theorem compensate_sum_zeroes (l : PrunableLayer) (p : ParamsDict)
    (td : List (ℕ × ℕ)) (i j : ℕ) (conn : Connection)
    (hpair : (i, j) ∈ td) (hconn : conn ∈ l.connections) :
    (¬(conn.direction = "in" ∧ l.maxout = true) →
      ZeroAt (compensate_for_pruning_sum td l p conn.mat_name) conn.dim
        (j + connOffset (p conn.mat_name) conn)) ∧
    ((conn.direction = "in" ∧ l.maxout = true) →
      ZeroAt (compensate_for_pruning_sum td l p conn.mat_name) conn.dim
        ((j + connOffset (p conn.mat_name) conn) * 2) ∧
      ZeroAt (compensate_for_pruning_sum td l p conn.mat_name) conn.dim
        ((j + connOffset (p conn.mat_name) conn) * 2 + 1) ∧
      ∀ k, k ∉ td.map Prod.snd →
        (∀ c2 ∈ l.connections, c2.mat_name = conn.mat_name → c2 = conn) →
        ∀ o,
          (compensate_for_pruning_sum td l p conn.mat_name).read conn.dim
              ((k + connOffset (p conn.mat_name) conn) * 2) o
            = (p conn.mat_name).read conn.dim
              ((k + connOffset (p conn.mat_name) conn) * 2) o ∧
          (compensate_for_pruning_sum td l p conn.mat_name).read conn.dim
              ((k + connOffset (p conn.mat_name) conn) * 2 + 1) o
            = (p conn.mat_name).read conn.dim
              ((k + connOffset (p conn.mat_name) conn) * 2 + 1) o) := by
  constructor
  · intro hnmx
    have := compSum_sets l td (i, j) conn p hpair hconn
      (j + connOffset (p conn.mat_name) conn) ?_
    · exact this
    · unfold compTargets
      rw [if_neg hnmx]
      exact List.mem_singleton.mpr rfl
  · intro hmx
    refine ⟨?_, ?_, ?_⟩
    · apply compSum_sets l td (i, j) conn p hpair hconn
      unfold compTargets
      rw [if_pos hmx]
      simp
    · apply compSum_sets l td (i, j) conn p hpair hconn
      unfold compTargets
      rw [if_pos hmx]
      simp
    · intro k hk huniq o
      constructor
      · apply compSum_frame l td p conn.mat_name conn.dim _ ?_ o
        intro q hq c2 hc2 hn
        have hceq : c2 = conn := huniq c2 hc2 hn
        subst hceq
        refine ⟨rfl, ?_⟩
        unfold compTargets
        rw [if_pos hmx]
        have hkq : k ≠ q.2 := fun he => hk (he ▸ List.mem_map.mpr ⟨q, hq, rfl⟩)
        simp only [List.mem_cons, List.not_mem_nil, or_false, not_or]
        omega
      · apply compSum_frame l td p conn.mat_name conn.dim _ ?_ o
        intro q hq c2 hc2 hn
        have hceq : c2 = conn := huniq c2 hc2 hn
        subst hceq
        refine ⟨rfl, ?_⟩
        unfold compTargets
        rw [if_pos hmx]
        have hkq : k ≠ q.2 := fun he => hk (he ▸ List.mem_map.mpr ⟨q, hq, rfl⟩)
        simp only [List.mem_cons, List.not_mem_nil, or_false, not_or]
        omega

/-- Inbound maxout connection for the concrete C1 witness layer. -/
def w1Conn : Connection := ⟨"in", "W", 0, 0⟩

/-- Concrete maxout layer with a single inbound connection. -/
def w1Layer : PrunableLayer :=
  ⟨"decmaxout", 1, 1, true, true, [w1Conn], none, none, 2, none, 2, 1, 1, [], []⟩

/-- Weight store holding one all-fives vector. -/
def w1Params : ParamsDict := fun _ => .vec 8 (fun _ => 5)

/-- Deletion list pruning neuron 1 with survivor 0. -/
def w1Td : List (ℕ × ℕ) := [(0, 1)]

/-- Witness for C1: pruning logical neuron 1 of the maxout layer zeroes the
physical cells 2 and 3, and leaves cell 0 (a sub-index of the surviving
neuron 0) at its original value 5. -/
theorem compensate_sum_zeroes_witness :
    ZeroAt (compensate_for_pruning_sum w1Td w1Layer w1Params "W") 0 2 ∧
    ZeroAt (compensate_for_pruning_sum w1Td w1Layer w1Params "W") 0 3 ∧
    (compensate_for_pruning_sum w1Td w1Layer w1Params "W").read 0 0 0 = 5 := by
  have hoff : connOffset (w1Params w1Conn.mat_name) w1Conn = 0 := rfl
  have h := compensate_sum_zeroes w1Layer w1Params w1Td 0 1 w1Conn
    (List.mem_singleton.mpr rfl) (List.mem_singleton.mpr rfl)
  obtain ⟨-, h2⟩ := h
  obtain ⟨hz1, hz2, hfr⟩ := h2 ⟨rfl, rfl⟩
  rw [hoff] at hz1 hz2
  have hfr0 := hfr 0 (by decide)
    (fun c2 hc2 _ => by
      simp only [w1Layer, List.mem_singleton] at hc2
      exact hc2) 0
  rw [hoff] at hfr0
  exact ⟨hz1, hz2, hfr0.1.trans rfl⟩

/-! ### `prune` branch characterizations and `sanity_check` (C2, C6) -/

theorem pruneInit_fields (l : PrunableLayer) :
    (pruneInit l).connections = l.connections ∧
    (pruneInit l).pruned_neurons = l.pruned_neurons ∧
    (pruneInit l).maxout = l.maxout ∧
    (pruneInit l).dists = l.dists ∧
    (pruneInit l).activities = l.activities ∧
    (pruneInit l).n_obs = l.n_obs ∧
    (pruneInit l).obs = l.obs ∧
    (pruneInit l).trg_size = l.trg_size ∧
    (pruneInit l).distsSize = l.distsSize := by
  unfold pruneInit PrunableLayer.initialize_mask PrunableLayer.derive_step_size
  split <;> exact ⟨rfl, rfl, rfl, rfl, rfl, rfl, rfl, rfl, rfl⟩

theorem prune_nonpos_eq (l0 : PrunableLayer) (params : ParamsDict)
    (h : pruneNToDelete (pruneInit l0) ≤ 0) :
    l0.prune params = ((pruneInit l0).reset, params) := by
  unfold PrunableLayer.prune
  rw [if_pos h]

theorem prune_pos_eq (l0 : PrunableLayer) (params : ParamsDict)
    (h : ¬ pruneNToDelete (pruneInit l0) ≤ 0) :
    l0.prune params =
      ({ pruneInit l0 with
          dists := some (pruneDists (pruneInit l0)),
          activities := some (pruneAct (pruneInit l0)),
          mask := some (pruneScan (pruneInit l0)).mask,
          pruned_neurons := (pruneScan (pruneInit l0)).pruned },
       compensate_for_pruning (pruneScan (pruneInit l0)).toDelete
         (pruneInit l0) params) := by
  unfold PrunableLayer.prune
  rw [if_neg h]

theorem foldl_max_zero (L : List ℚ) (h : ∀ x ∈ L, x = 0) :
    L.foldl max 0 = 0 := by
  induction L with
  | nil => rfl
  | cons a t ih =>
    rw [List.foldl_cons, h a (List.mem_cons_self a t), max_self]
    exact ih (fun x hx => h x (List.mem_cons_of_mem a hx))

theorem sanityEps_zero (A : NpArray) (dim : ℤ) (idxs : List ℕ)
    (h : ∀ i ∈ idxs, ZeroAt A dim i) : sanityEps A dim idxs = 0 := by
  cases A with
  | vec n v =>
    apply foldl_max_zero
    intro x hx
    obtain ⟨i, hi, hxi⟩ := List.mem_map.mp hx
    have := h i hi 0
    simp only [NpArray.read] at this
    rw [← hxi, this, abs_zero]
  | mtx r c m =>
    unfold sanityEps
    split_ifs with h0 h1
    · apply foldl_max_zero
      intro x hx
      rw [List.mem_flatten] at hx
      obtain ⟨row, hrow, hxr⟩ := hx
      obtain ⟨i, hi, hri⟩ := List.mem_map.mp hrow
      subst hri
      obtain ⟨b, _, hxb⟩ := List.mem_map.mp hxr
      have := h i hi b
      simp only [NpArray.read, h0, if_pos] at this
      rw [← hxb, this, abs_zero]
    · apply foldl_max_zero
      intro x hx
      rw [List.mem_flatten] at hx
      obtain ⟨row, hrow, hxr⟩ := hx
      obtain ⟨i, hi, hri⟩ := List.mem_map.mp hrow
      subst hri
      obtain ⟨a, _, hxa⟩ := List.mem_map.mp hxr
      have := h i hi a
      simp [NpArray.read, h0, h1] at this
      rw [← hxa, this, abs_zero]
    · rfl

theorem sanity_check_fold_zero (l : PrunableLayer) (p : ParamsDict)
    (h : ∀ conn ∈ l.connections,
      sanityEps (p conn.mat_name) conn.dim
        (l.pruned_neurons.map (· + connOffset (p conn.mat_name) conn)) = 0) :
    l.sanity_check p = 0 := by
  unfold PrunableLayer.sanity_check
  have main : ∀ cs : List Connection, (∀ conn ∈ cs,
      sanityEps (p conn.mat_name) conn.dim
        (l.pruned_neurons.map (· + connOffset (p conn.mat_name) conn)) = 0) →
      cs.foldl (fun geps conn =>
        max (sanityEps (p conn.mat_name) conn.dim
          (l.pruned_neurons.map (· + connOffset (p conn.mat_name) conn))) geps) 0 = 0 := by
    intro cs
    induction cs with
    | nil => intro _; rfl
    | cons c t ih =>
      intro hcs
      rw [List.foldl_cons, hcs c (List.mem_cons_self c t), max_self]
      exact ih (fun x hx => hcs x (List.mem_cons_of_mem c hx))
  exact main l.connections h

theorem allPairs_lt (a b n : ℕ) (h : (a, b) ∈ allPairs n) : a < n ∧ b < n := by
  unfold allPairs at h
  rw [List.mem_flatMap] at h
  obtain ⟨i, hi, hmem⟩ := h
  rw [List.mem_map] at hmem
  obtain ⟨j, hj, heq⟩ := hmem
  cases heq
  exact ⟨List.mem_range.mp hi, List.mem_range.mp hj⟩

theorem compensateConn_vec (l : PrunableLayer) (q : ℕ × ℕ) (p : ParamsDict)
    (c : Connection) (name : String) (n : ℕ) (v : ℕ → ℚ)
    (h : p name = .vec n v) : ∃ v2, compensateConn l q p c name = .vec n v2 := by
  by_cases hn : name = c.mat_name
  · subst hn
    simp only [compensateConn, storeSet, if_pos, h]
    split_ifs <;> exact ⟨_, rfl⟩
  · rw [compensateConn_apply_other _ _ _ _ _ hn, h]
    exact ⟨v, rfl⟩

theorem connsFold_vec (l : PrunableLayer) (q : ℕ × ℕ) (cs : List Connection) :
    ∀ (p : ParamsDict) (name : String) (n : ℕ) (v : ℕ → ℚ),
      p name = .vec n v →
      ∃ v2, (cs.foldl (compensateConn l q) p) name = .vec n v2 := by
  induction cs with
  | nil => intro p name n v h; exact ⟨v, h⟩
  | cons c cs ih =>
    intro p name n v h
    rw [List.foldl_cons]
    obtain ⟨v1, h1⟩ := compensateConn_vec l q p c name n v h
    exact ih _ name n v1 h1

theorem compSum_vec (l : PrunableLayer) (td : List (ℕ × ℕ)) :
    ∀ (p : ParamsDict) (name : String) (n : ℕ) (v : ℕ → ℚ),
      p name = .vec n v →
      ∃ v2, compensate_for_pruning_sum td l p name = .vec n v2 := by
  induction td with
  | nil => intro p name n v h; exact ⟨v, h⟩
  | cons q td ih =>
    intro p name n v h
    unfold compensate_for_pruning_sum at ih ⊢
    rw [List.foldl_cons]
    obtain ⟨v1, h1⟩ := connsFold_vec l q l.connections p name n v h
    exact ih _ name n v1 h1

/-- C2 (amended): for every layer that is **not** maxout, immediately after
a prune call that applied the sum compensation strategy (`n_to_delete > 0`),
`sanity_check`'s reported global value — the maximum over all connections of
the maximum absolute value of the connection matrix's entries at the pruned
indices, with the connection's offset applied — equals 0, provided the
slices of the previously pruned indices were already zero (as earlier
compensation calls leave them).  For a maxout layer with an inbound
connection the claim fails: `sanity_check` reads logical index `j+offset`
while compensation zeroes physical indices `2(j+offset)`, `2(j+offset)+1`
(see the counterexample). -/
theorem sanity_zero_after_prune (l0 : PrunableLayer) (params : ParamsDict)
    (hmx : l0.maxout = false)
    (hprev : ∀ conn ∈ l0.connections, ∀ idx ∈ l0.pruned_neurons,
      ZeroAt (params conn.mat_name) conn.dim
        (idx + connOffset (params conn.mat_name) conn))
    (hdel : 0 < pruneNToDelete (pruneInit l0)) :
    (l0.prune params).1.sanity_check (l0.prune params).2 = 0 := by
  have hne : ¬ pruneNToDelete (pruneInit l0) ≤ 0 := not_le.mpr hdel
  rw [prune_pos_eq l0 params hne]
  obtain ⟨hconn, hpruned, hmaxout, -⟩ := pruneInit_fields l0
  apply sanity_check_fold_zero
  intro conn hc
  have hc0 : conn ∈ (pruneInit l0).connections := hc
  have hc1 : conn ∈ l0.connections := hconn ▸ hc0
  apply sanityEps_zero
  intro t ht
  obtain ⟨idx, hidx, hteq⟩ := List.mem_map.mp ht
  subst hteq
  have hoff : connOffset
      ((compensate_for_pruning (pruneScan (pruneInit l0)).toDelete
        (pruneInit l0) params) conn.mat_name) conn
      = connOffset (params conn.mat_name) conn :=
    connOffset_eq_of_shapeAt _ _ _
      (compSum_shapeAt (pruneInit l0) _ params conn.mat_name conn.dim)
  rw [hoff]
  obtain ⟨new, h1, h2, -⟩ := selectLoop_spec (pruneAct (pruneInit l0))
    (pruneNToDelete (pruneInit l0))
    (argsortPairs (pruneInit l0).distsSize (pruneSearch (pruneInit l0)))
    ⟨(pruneInit l0).pruned_neurons,
     (pruneInit l0).mask.getD (fun _ _ => 0), []⟩
  have h1' : (pruneScan (pruneInit l0)).toDelete = new := by
    rw [show (pruneScan (pruneInit l0)).toDelete
        = [] ++ new from h1, List.nil_append]
  have h2' : (pruneScan (pruneInit l0)).pruned
      = (pruneInit l0).pruned_neurons ++ new.map Prod.snd := h2
  have hidx' : idx ∈ (pruneInit l0).pruned_neurons ++ new.map Prod.snd := by
    rw [← h2']; exact hidx
  rcases List.mem_append.mp hidx' with hold | hnew
  · exact compSum_zeroAt _ _ _ _ _ _
      (hprev conn hc1 idx (hpruned ▸ hold))
  · obtain ⟨q, hq, hq2⟩ := List.mem_map.mp hnew
    subst hq2
    have hqtd : q ∈ (pruneScan (pruneInit l0)).toDelete := by
      rw [h1']; exact hq
    apply compSum_sets (pruneInit l0) _ q conn params hqtd hc0
    unfold compTargets
    rw [if_neg]
    · exact List.mem_singleton.mpr rfl
    · rintro ⟨-, hmx2⟩
      rw [hmaxout, hmx] at hmx2
      cases hmx2

/-- Non-maxout connection for the concrete C2 witness layer. -/
def w2Conn : Connection := ⟨"in", "V", 0, 0⟩

/-- Concrete non-maxout two-neuron layer, accumulators filled, mask already
initialized, one pruning step outstanding. -/
def w2Layer : PrunableLayer :=
  ⟨"decgru", 1, 1, false, true, [w2Conn],
   some (fun i j => ((i : ℚ) - (j : ℚ)) ^ 2), some (fun i => (i : ℚ)), 2,
   some (fun i j => if i ≤ j then INF_DIST else 0), 2, 5, 1, [], []⟩

/-- All-fives weight store for the C2 witness. -/
def w2Params : ParamsDict := fun _ => .vec 4 (fun _ => 5)

/-- Witness for C2 (amended) at a concrete non-maxout layer. -/
theorem sanity_zero_after_prune_witness :
    (w2Layer.prune w2Params).1.sanity_check (w2Layer.prune w2Params).2 = 0 := by
  apply sanity_zero_after_prune w2Layer w2Params rfl
  · intro conn _ idx hidx
    cases hidx
  · decide

/-- Inbound maxout connection with fractional start 0.25 into a shared
8-cell parameter vector. -/
def c2Conn : Connection := ⟨"in", "V", 0, 1/4⟩

/-- Concrete maxout layer of logical size 2 (accumulators filled, mask
initialized, one step outstanding) whose sole connection is `c2Conn`. -/
def c2Layer : PrunableLayer :=
  ⟨"decmaxout", 1, 1, true, true, [c2Conn],
   some (fun _ _ => 0), some (fun _ => 0), 2,
   some (fun i j => if i ≤ j then INF_DIST else 0), 2, 5, 1, [], []⟩

/-- All-fives weight store for the C2 counterexample. -/
def c2Params : ParamsDict := fun _ => .vec 8 (fun _ => 5)

/-- Counterexample for C2 as stated: on the maxout layer `c2Layer`, the
prune call does apply sum compensation (`n_to_delete = 1 > 0`), yet
`sanity_check` reports 5, not 0: compensation zeroes the physical cells
`2(j+2)`, `2(j+2)+1` of the deleted neuron `j`, while `sanity_check` reads
the untouched logical cell `j+2`, which still holds the original weight 5. -/
theorem sanity_after_prune_maxout_cex :
    0 < pruneNToDelete (pruneInit c2Layer) ∧
    (c2Layer.prune c2Params).1.sanity_check (c2Layer.prune c2Params).2 = 5 := by
  have hinit : pruneInit c2Layer = c2Layer := rfl
  have hdel : (0 : ℤ) < pruneNToDelete (pruneInit c2Layer) := by decide
  refine ⟨hdel, ?_⟩
  have hn : pruneNToDelete c2Layer = 1 := by decide
  -- the scan selects exactly one pair q, and q.2 < 2
  have hcount : ((pruneScan c2Layer).toDelete.length : ℤ)
      = pruneNToDelete c2Layer := by
    apply selectLoop_count (pruneAct c2Layer) (pruneNToDelete c2Layer) 2
      (argsortPairs c2Layer.distsSize (pruneSearch c2Layer))
      ⟨c2Layer.pruned_neurons, c2Layer.mask.getD (fun _ _ => 0), []⟩
      (List.mergeSort_perm _ _) rfl List.nodup_nil
    · rw [hn]
    · rw [hn]; decide
  obtain ⟨new, h1, h2, h3⟩ := selectLoop_spec (pruneAct c2Layer)
    (pruneNToDelete c2Layer)
    (argsortPairs c2Layer.distsSize (pruneSearch c2Layer))
    ⟨c2Layer.pruned_neurons, c2Layer.mask.getD (fun _ _ => 0), []⟩
  have h1' : (pruneScan c2Layer).toDelete = new := by
    rw [show (pruneScan c2Layer).toDelete = [] ++ new from h1, List.nil_append]
  have hlen : new.length = 1 := by
    have : ((pruneScan c2Layer).toDelete.length : ℤ) = 1 := by rw [hcount, hn]
    rw [h1'] at this
    exact_mod_cast this
  obtain ⟨q, hq⟩ := List.length_eq_one.mp hlen
  subst hq
  have h2' : (pruneScan c2Layer).pruned = [q.2] := by
    rw [show (pruneScan c2Layer).pruned
        = c2Layer.pruned_neurons ++ [q].map Prod.snd from h2]
    rfl
  have hq2lt : q.2 < 2 := by
    obtain ⟨a, b, hab, hsel⟩ := h3 q (List.mem_singleton.mpr rfl)
    have hmem : (a, b) ∈ allPairs 2 :=
      (List.mergeSort_perm (allPairs 2) _).mem_iff.mp hab
    obtain ⟨ha, hb⟩ := allPairs_lt a b 2 hmem
    rcases selectStepPair_snd (pruneAct c2Layer) a b with h | h <;>
      rw [hsel, h] <;> assumption
  -- offsets
  have hoffp : connOffset (c2Params "V") c2Conn = 2 := by
    norm_num [connOffset, c2Params, c2Conn, NpArray.shapeAt]
    rfl
  -- the compensated store
  rw [prune_pos_eq c2Layer c2Params (by decide), hinit]
  have hoff2 : connOffset
      ((compensate_for_pruning (pruneScan c2Layer).toDelete c2Layer c2Params)
        "V") c2Conn = 2 :=
    Eq.trans (connOffset_eq_of_shapeAt _ (c2Params "V") c2Conn
      (compSum_shapeAt c2Layer (pruneScan c2Layer).toDelete c2Params "V"
        c2Conn.dim)) hoffp
  -- the logical cell q.2 + 2 is untouched by compensation
  have hframe : ((compensate_for_pruning (pruneScan c2Layer).toDelete c2Layer
        c2Params) "V").read 0 (q.2 + 2) 0 = 5 := by
    rw [h1']
    refine Eq.trans (compSum_frame c2Layer [q] c2Params "V" 0 (q.2 + 2) ?_ 0) rfl
    intro q' hq' c hc hcn
    have hq'q : q' = q := List.mem_singleton.mp hq'
    have hcc : c = c2Conn := List.mem_singleton.mp hc
    subst hq'q; subst hcc
    refine ⟨rfl, ?_⟩
    rw [hoffp]
    unfold compTargets
    rw [if_pos ⟨rfl, rfl⟩]
    simp only [List.mem_cons, List.not_mem_nil, or_false, not_or]
    omega
  -- evaluate the sanity check on the single connection
  have hvec : ∃ v2, (compensate_for_pruning (pruneScan c2Layer).toDelete
      c2Layer c2Params) "V" = .vec 8 v2 :=
    compSum_vec c2Layer _ c2Params "V" 8 (fun _ => 5) rfl
  obtain ⟨v2, hv2⟩ := hvec
  have hsan : PrunableLayer.sanity_check
      { c2Layer with
          dists := some (pruneDists c2Layer),
          activities := some (pruneAct c2Layer),
          mask := some (pruneScan c2Layer).mask,
          pruned_neurons := (pruneScan c2Layer).pruned }
      (compensate_for_pruning (pruneScan c2Layer).toDelete c2Layer c2Params)
      = max (sanityEps
          ((compensate_for_pruning (pruneScan c2Layer).toDelete c2Layer
            c2Params) "V") 0
          ((pruneScan c2Layer).pruned.map (· + connOffset
            ((compensate_for_pruning (pruneScan c2Layer).toDelete c2Layer
              c2Params) "V") c2Conn))) 0 := rfl
  rw [hsan, h2', hoff2]
  rw [hv2]
  have hread : v2 (q.2 + 2) = 5 := by
    rw [hv2] at hframe
    exact hframe
  simp only [sanityEps, List.map_cons, List.map_nil, List.foldl_cons,
    List.foldl_nil, hread]
  norm_num

/-! ### C3: step size on the first prune call -/

theorem ceil_div_int (a : ℤ) (n : ℕ) (hn : 0 < n) :
    (¬ ((n : ℤ) ∣ a) → ⌈(a : ℚ) / (n : ℚ)⌉ = Int.fdiv a n + 1) ∧
    (((n : ℤ) ∣ a) → ⌈(a : ℚ) / (n : ℚ)⌉ = Int.fdiv a n) := by
  have hn0 : (n : ℚ) ≠ 0 := by positivity
  have hfl : ⌊(a : ℚ) / (n : ℚ)⌋ = Int.fdiv a n := by
    rw [Rat.floor_intCast_div_natCast, Int.fdiv_eq_ediv _ (by positivity)]
  constructor
  · intro hnd
    have hfr : Int.fract ((a : ℚ) / (n : ℚ)) ≠ 0 := by
      rw [Int.fract_div_intCast_eq_div_intCast_mod]
      intro h0
      apply hnd
      rcases div_eq_zero_iff.mp h0 with h | h
      · exact Int.dvd_of_emod_eq_zero (by exact_mod_cast h)
      · exact absurd h hn0
    have hceil : ((⌈(a : ℚ) / (n : ℚ)⌉ : ℤ) : ℚ)
        = ((⌊(a : ℚ) / (n : ℚ)⌋ + 1 : ℤ) : ℚ) := by
      push_cast
      rw [Int.ceil_eq_add_one_sub_fract hfr]
      have hsf := Int.self_sub_fract ((a : ℚ) / (n : ℚ))
      linarith
    have := Int.cast_injective (α := ℚ) hceil
    rw [this, hfl]
  · rintro ⟨c, hc⟩
    subst hc
    have h1 : (((n : ℤ) * c : ℤ) : ℚ) / (n : ℚ) = (c : ℚ) := by
      push_cast
      field_simp
    rw [h1, Int.ceil_intCast, Int.mul_fdiv_cancel_left c (by exact_mod_cast hn.ne')]

/-- C3 (amended): on the first prune call for a layer (no mask yet, nothing
pruned) with a positive number of remaining steps, the derived step size
equals `floor((current unpruned count − target size) / remaining steps) + 1`
— i.e. the spec's `ceil((unpruned − target) / steps)` when steps does not
divide the difference, and that ceil **plus one** when it does. -/
theorem derive_step_size_first_call (l : PrunableLayer)
    (hm : l.mask = none) (hp : l.pruned_neurons = [])
    (hs : 0 < l.n_steps) :
    (pruneInit l).step_size
      = Int.fdiv ((pruneInit l).count_unpruned_neurons - l.trg_size)
          l.n_steps + 1 ∧
    (¬ ((l.n_steps : ℤ) ∣ ((pruneInit l).count_unpruned_neurons - l.trg_size)) →
      (pruneInit l).step_size
        = ⌈(((pruneInit l).count_unpruned_neurons : ℚ) - (l.trg_size : ℚ))
            / (l.n_steps : ℚ)⌉) ∧
    (((l.n_steps : ℤ) ∣ ((pruneInit l).count_unpruned_neurons - l.trg_size)) →
      (pruneInit l).step_size
        = ⌈(((pruneInit l).count_unpruned_neurons : ℚ) - (l.trg_size : ℚ))
            / (l.n_steps : ℚ)⌉ + 1) := by
  have hisn : l.mask.isNone = true := by rw [hm]; rfl
  have hcount : (pruneInit l).count_unpruned_neurons = (l.distsSize : ℤ) := by
    simp [pruneInit, hisn, PrunableLayer.count_unpruned_neurons,
      PrunableLayer.derive_step_size, PrunableLayer.initialize_mask,
      PrunableLayer.get_size, hp]
  have hstep : (pruneInit l).step_size
      = Int.fdiv ((l.distsSize : ℤ) - l.trg_size) l.n_steps + 1 := by
    simp [pruneInit, hisn, PrunableLayer.derive_step_size,
      PrunableLayer.initialize_mask, PrunableLayer.get_size]
  set a : ℤ := (l.distsSize : ℤ) - l.trg_size with ha
  have hcast : (((pruneInit l).count_unpruned_neurons : ℚ) - (l.trg_size : ℚ))
      = ((a : ℤ) : ℚ) := by
    rw [hcount, ha]
    push_cast
    ring
  obtain ⟨hnd, hd⟩ := ceil_div_int a l.n_steps hs
  refine ⟨by rw [hstep, hcount], ?_, ?_⟩
  · intro h
    rw [hcount] at h
    rw [hstep, hcast, hnd h]
  · intro h
    rw [hcount] at h
    rw [hstep, hcast, hd h]

/-- Layer of size 10, target 8, one remaining step, nothing pruned, no mask
yet: the concrete scenario of the spec. -/
def c3Layer : PrunableLayer :=
  ⟨"decgru", 8, 1, false, true, [], some (fun _ _ => 0), some (fun _ => 0),
   10, none, 0, 0, 1, [], []⟩

/-- Counterexample for C3 as stated: on the first prune call for `c3Layer`
the derived step size is 3, while the claim's
`ceil((unpruned − target) / steps) = ceil(2/1)` is 2. -/
theorem derive_step_size_cex :
    (pruneInit c3Layer).step_size = 3 ∧
    ⌈(((pruneInit c3Layer).count_unpruned_neurons : ℚ)
        - (c3Layer.trg_size : ℚ)) / (c3Layer.n_steps : ℚ)⌉ = 2 := by
  constructor
  · decide
  · have hc : (pruneInit c3Layer).count_unpruned_neurons = 10 := by decide
    have h8 : c3Layer.trg_size = 8 := rfl
    have h1 : c3Layer.n_steps = 1 := rfl
    rw [hc, h8, h1]
    norm_num

/-- Witness for C3 (amended) at the concrete first-call layer: the step size
is `fdiv(2, 1) + 1`, and — since 1 divides 2 — equals the spec's ceil plus
one. -/
theorem derive_step_size_first_call_witness :
    (pruneInit c3Layer).step_size
      = Int.fdiv ((pruneInit c3Layer).count_unpruned_neurons
          - c3Layer.trg_size) c3Layer.n_steps + 1 ∧
    (pruneInit c3Layer).step_size
      = ⌈(((pruneInit c3Layer).count_unpruned_neurons : ℚ)
          - (c3Layer.trg_size : ℚ)) / (c3Layer.n_steps : ℚ)⌉ + 1 := by
  have h := derive_step_size_first_call c3Layer rfl rfl (by decide)
  exact ⟨h.1, h.2.2 (by decide)⟩

/-! ### C4, C5: how many neurons one prune call removes -/

/-- Core accounting for a prune call that enters the selection loop
(`n_to_delete > 0`): exactly `n_to_delete` previously-unpruned, pairwise
distinct neurons are appended to the pruned list, and the unpruned count
drops by exactly `n_to_delete`. -/
theorem prune_adds (l0 : PrunableLayer) (params : ParamsDict)
    (hnd : l0.pruned_neurons.Nodup)
    (hsz : (pruneInit l0).maskSize = (pruneInit l0).distsSize)
    (hdel : 0 < pruneNToDelete (pruneInit l0)) :
    ∃ js : List ℕ,
      (l0.prune params).1.pruned_neurons = l0.pruned_neurons ++ js ∧
      (js.length : ℤ) = pruneNToDelete (pruneInit l0) ∧
      (l0.prune params).1.count_unpruned_neurons
        = (pruneInit l0).count_unpruned_neurons
          - pruneNToDelete (pruneInit l0) ∧
      (l0.pruned_neurons ++ js).Nodup := by
  obtain ⟨-, hpruned, -⟩ := pruneInit_fields l0
  have hne : ¬ pruneNToDelete (pruneInit l0) ≤ 0 := not_le.mpr hdel
  rw [prune_pos_eq l0 params hne]
  set l := pruneInit l0 with hl
  have hcnt : ((pruneScan l).toDelete.length : ℤ) = pruneNToDelete l := by
    apply selectLoop_count (pruneAct l) (pruneNToDelete l) l.distsSize
      (argsortPairs l.distsSize (pruneSearch l))
      ⟨l.pruned_neurons, l.mask.getD (fun _ _ => 0), []⟩
      (List.mergeSort_perm _ _) rfl (hpruned ▸ hnd) hdel
    have h1 : pruneNToDelete l ≤ l.count_unpruned_neurons - l.trg_size :=
      min_le_left _ _
    have h2 : l.count_unpruned_neurons
        = (l.maskSize : ℤ) - l.pruned_neurons.length := rfl
    have h3 : (l.maskSize : ℤ) = (l.distsSize : ℤ) := by exact_mod_cast hsz
    have h4 : (0 : ℤ) ≤ l.trg_size := Int.ofNat_nonneg _
    have h5 : (⟨l.pruned_neurons, l.mask.getD (fun _ _ => 0),
        ([] : List (ℕ × ℕ))⟩ : ScanState).pruned.length
        = l.pruned_neurons.length := rfl
    omega
  obtain ⟨new, h1, h2, -⟩ := selectLoop_spec (pruneAct l) (pruneNToDelete l)
    (argsortPairs l.distsSize (pruneSearch l))
    ⟨l.pruned_neurons, l.mask.getD (fun _ _ => 0), []⟩
  have h1' : (pruneScan l).toDelete = new := by
    rw [show (pruneScan l).toDelete = [] ++ new from h1, List.nil_append]
  have h2' : (pruneScan l).pruned = l.pruned_neurons ++ new.map Prod.snd := h2
  refine ⟨new.map Prod.snd, ?_, ?_, ?_, ?_⟩
  · show (pruneScan l).pruned = l0.pruned_neurons ++ new.map Prod.snd
    rw [h2', hpruned]
  · rw [List.length_map, show new.length = (pruneScan l).toDelete.length
      from by rw [h1']]
    exact hcnt
  · show (l.maskSize : ℤ) - ((pruneScan l).pruned.length : ℤ)
      = ((l.maskSize : ℤ) - l.pruned_neurons.length) - pruneNToDelete l
    rw [h2', List.length_append, List.length_map]
    have : (new.length : ℤ) = pruneNToDelete l := by
      rw [show new.length = (pruneScan l).toDelete.length from by rw [h1']]
      exact hcnt
    push_cast
    omega
  · have := selectLoop_nodup (pruneAct l) (pruneNToDelete l)
      (argsortPairs l.distsSize (pruneSearch l))
      ⟨l.pruned_neurons, l.mask.getD (fun _ _ => 0), []⟩ (hpruned ▸ hnd)
    rw [show (selectLoop (pruneAct l) (pruneNToDelete l)
        (argsortPairs l.distsSize (pruneSearch l))
        ⟨l.pruned_neurons, l.mask.getD (fun _ _ => 0), []⟩).pruned
        = (pruneScan l).pruned from rfl, h2', hpruned] at this
    exact this

/-- C5: a prune call that enters the selection loop appends `k` pairwise
distinct, previously unpruned neurons to the pruned list and decreases
`count_unpruned_neurons()` by exactly `k`; moreover `k` always equals
`n_to_delete` — the scan can never exhaust the candidate pairs first,
because diagonal pairs of unpruned neurons remain eligible, so the
"fewer than `n_to_delete`" exception is vacuous. -/
theorem prune_deletes_exactly_n (l0 : PrunableLayer) (params : ParamsDict)
    (hnd : l0.pruned_neurons.Nodup)
    (hsz : (pruneInit l0).maskSize = (pruneInit l0).distsSize)
    (hdel : 0 < pruneNToDelete (pruneInit l0)) :
    ∃ js : List ℕ,
      (l0.prune params).1.pruned_neurons = l0.pruned_neurons ++ js ∧
      js.Nodup ∧ (∀ u ∈ js, u ∉ l0.pruned_neurons) ∧
      (l0.prune params).1.count_unpruned_neurons
        = (pruneInit l0).count_unpruned_neurons - js.length ∧
      (js.length : ℤ) = pruneNToDelete (pruneInit l0) := by
  obtain ⟨js, h1, h2, h3, h4⟩ := prune_adds l0 params hnd hsz hdel
  rw [List.nodup_append] at h4
  refine ⟨js, h1, h4.2.1, fun u hu hmem => h4.2.2 hmem hu, ?_, h2⟩
  rw [h3, ← h2]

/-- Witness for C5 at the concrete two-neuron layer `w2Layer`. -/
theorem prune_deletes_exactly_n_witness :
    ∃ js : List ℕ,
      (w2Layer.prune w2Params).1.pruned_neurons
        = w2Layer.pruned_neurons ++ js ∧
      (js.length : ℤ) = pruneNToDelete (pruneInit w2Layer) := by
  obtain ⟨js, h1, -, -, -, h5⟩ := prune_deletes_exactly_n w2Layer w2Params
    List.nodup_nil rfl (by decide)
  exact ⟨js, h1, h5⟩

/-- C4: for a layer of size 10 with target size 8, `prune_n_steps = 1` and
no neuron yet pruned, the first prune call derives `step_size = 3`, computes
`n_to_delete = min(10 − 8, 3) = 2`, and prunes exactly 2 neurons. -/
theorem prune_first_call_scenario (l0 : PrunableLayer) (params : ParamsDict)
    (hm : l0.mask = none) (hp : l0.pruned_neurons = [])
    (hsz : l0.distsSize = 10) (htrg : l0.trg_size = 8) (hns : l0.n_steps = 1) :
    (pruneInit l0).step_size = 3 ∧
    pruneNToDelete (pruneInit l0) = 2 ∧
    (l0.prune params).1.pruned_neurons.length = 2 ∧
    (l0.prune params).1.count_unpruned_neurons = 8 := by
  obtain ⟨-, hprf, -, -, -, -, -, htrgf, hdszf⟩ := pruneInit_fields l0
  have hisn : l0.mask.isNone = true := by rw [hm]; rfl
  have hmsz : (pruneInit l0).maskSize = l0.distsSize := by
    simp [pruneInit, hisn, PrunableLayer.derive_step_size,
      PrunableLayer.initialize_mask]
  have hprn : (pruneInit l0).pruned_neurons = [] := by rw [hprf, hp]
  have hstep : (pruneInit l0).step_size = 3 := by
    simp only [pruneInit, hisn, if_pos, PrunableLayer.derive_step_size,
      PrunableLayer.initialize_mask, PrunableLayer.get_size, hsz, htrg, hns]
    decide
  have hcount : (pruneInit l0).count_unpruned_neurons = 10 := by
    simp [PrunableLayer.count_unpruned_neurons, PrunableLayer.get_size,
      hmsz, hsz, hprn]
  have hn2 : pruneNToDelete (pruneInit l0) = 2 := by
    unfold pruneNToDelete
    rw [hcount, hstep, htrgf, htrg]
    decide
  obtain ⟨js, hj1, hj2, hj3, -⟩ := prune_adds l0 params
    (hp ▸ List.nodup_nil) (by rw [hmsz, hdszf]) (by rw [hn2]; decide)
  refine ⟨hstep, hn2, ?_, ?_⟩
  · rw [hj1, hp, List.nil_append]
    rw [hn2] at hj2
    exact_mod_cast hj2
  · rw [hj3, hcount, hn2]
    decide

/-- Empty weight store for the C4 witness (the scenario layer declares no
connections, so compensation touches nothing). -/
def c4Params : ParamsDict := fun _ => .vec 0 (fun _ => 0)

/-- Witness for C4 at the concrete layer `c3Layer` (size 10, target 8, one
step, fresh). -/
theorem prune_first_call_scenario_witness :
    (pruneInit c3Layer).step_size = 3 ∧
    pruneNToDelete (pruneInit c3Layer) = 2 ∧
    (c3Layer.prune c4Params).1.pruned_neurons.length = 2 ∧
    (c3Layer.prune c4Params).1.count_unpruned_neurons = 8 :=
  prune_first_call_scenario c3Layer c4Params rfl rfl rfl rfl rfl

/-! ### C6: the `n_to_delete <= 0` early-out; C10: what prune leaves behind -/

/-- C6: if at a prune call `n_to_delete = min(unpruned − target, step_size)`
is ≤ 0, the call resets the accumulators (distance matrix, activity sums,
observation count, stored observations) and returns, mutating neither the
pruned-neuron membership nor any matrix of the weight store. -/
theorem prune_noop_when_pruned_enough (l0 : PrunableLayer)
    (params : ParamsDict) (h : pruneNToDelete (pruneInit l0) ≤ 0) :
    (l0.prune params).2 = params ∧
    (l0.prune params).1.pruned_neurons = l0.pruned_neurons ∧
    (l0.prune params).1.dists = none ∧
    (l0.prune params).1.activities = none ∧
    (l0.prune params).1.n_obs = 0 ∧
    (l0.prune params).1.obs = [] := by
  rw [prune_nonpos_eq l0 params h]
  obtain ⟨-, hpr, -⟩ := pruneInit_fields l0
  exact ⟨rfl, hpr, rfl, rfl, rfl, rfl⟩

/-- Already sufficiently pruned layer (size 3, target 5) for the C6 witness. -/
def c6Layer : PrunableLayer :=
  ⟨"decgru", 5, 1, false, true, [], some (fun _ _ => 0), some (fun _ => 0),
   3, some (fun i j => if i ≤ j then INF_DIST else 0), 3, 1, 1, [0], []⟩

/-- Witness for C6 at the concrete layer `c6Layer`. -/
theorem prune_noop_when_pruned_enough_witness :
    (c6Layer.prune w2Params).2 = w2Params ∧
    (c6Layer.prune w2Params).1.pruned_neurons = c6Layer.pruned_neurons ∧
    (c6Layer.prune w2Params).1.dists = none ∧
    (c6Layer.prune w2Params).1.n_obs = 0 :=
  have h := prune_noop_when_pruned_enough c6Layer w2Params (by decide)
  ⟨h.1, h.2.1, h.2.2.1, h.2.2.2.2.1⟩

/-- C10: a prune call that enters the selection loop (`n_to_delete > 0`)
does **not** reset the accumulators: the distance matrix and activity sums
remain divided in place by the observation count, the observation count and
the stored observations keep their pre-prune values, and a subsequent
`register_activities` adds raw batch sums onto these already-normalized
means. -/
theorem prune_keeps_normalized_accumulators (l0 : PrunableLayer)
    (params : ParamsDict) (d : ℕ → ℕ → ℚ) (a : ℕ → ℚ)
    (hdel : 0 < pruneNToDelete (pruneInit l0))
    (hd : l0.dists = some d) (ha : l0.activities = some a) :
    (l0.prune params).1.dists = some (fun i j => d i j / l0.n_obs) ∧
    (l0.prune params).1.activities = some (fun i => a i / l0.n_obs) ∧
    (l0.prune params).1.n_obs = l0.n_obs ∧
    (l0.prune params).1.obs = l0.obs ∧
    ∀ b : ActivityBatch,
      ((l0.prune params).1.register_activities b).dists
        = some (fun i j => d i j / l0.n_obs + dists_sq b i j) := by
  obtain ⟨-, -, -, hdf, haf, hnf, hof, -⟩ := pruneInit_fields l0
  have hdists : (pruneInit l0).dists = some d := by rw [hdf, hd]
  have hacts : (pruneInit l0).activities = some a := by rw [haf, ha]
  rw [prune_pos_eq l0 params (not_le.mpr hdel)]
  have hpd : pruneDists (pruneInit l0) = fun i j => d i j / l0.n_obs := by
    funext i j
    simp [pruneDists, hdists, hnf]
  have hpa : pruneAct (pruneInit l0) = fun i => a i / l0.n_obs := by
    funext i
    simp [pruneAct, hacts, hnf]
  refine ⟨by rw [hpd], by rw [hpa], hnf, hof, ?_⟩
  intro b
  show (PrunableLayer.register_activities
    { pruneInit l0 with
        dists := some (pruneDists (pruneInit l0)),
        activities := some (pruneAct (pruneInit l0)),
        mask := some (pruneScan (pruneInit l0)).mask,
        pruned_neurons := (pruneScan (pruneInit l0)).pruned } b).dists = _
  simp only [PrunableLayer.register_activities]
  rw [hpd]

/-- Witness for C10 at the concrete layer `w2Layer`. -/
theorem prune_keeps_normalized_accumulators_witness :
    (w2Layer.prune w2Params).1.n_obs = w2Layer.n_obs ∧
    (w2Layer.prune w2Params).1.obs = w2Layer.obs ∧
    (w2Layer.prune w2Params).1.dists
      = some (fun (i j : ℕ) => (((i : ℚ) - (j : ℚ)) ^ 2) / w2Layer.n_obs) := by
  have h := prune_keeps_normalized_accumulators w2Layer w2Params
    (fun (i j : ℕ) => ((i : ℚ) - (j : ℚ)) ^ 2) (fun (i : ℕ) => (i : ℚ))
    (by decide) rfl rfl
  exact ⟨h.2.2.1, h.2.2.2.1, h.1⟩

/-! ### C8: layout-file line parsing; C9: `KenLMPredictor.is_equal` -/

/-- C8: the layout line `decgru in W_dec 0 0.25` parses to a connection with
direction `"in"`, matrix name `"W_dec"`, axis 0 and start offset 0.25 for
layer `decgru`; any line splitting into exactly four fields (with a parsable
axis) gets start offset 0.0; and a non-blank line whose field count is
neither 4 nor 5 is logged and skipped — it yields neither a connection nor
an error. -/
theorem parse_layout_line_spec :
    parse_layout_line "decgru in W_dec 0 0.25"
      = .parsed "decgru" ⟨"in", "W_dec", 0, 1/4⟩ ∧
    (∀ (line p0 p1 p2 p3 : String) (n : ℤ),
      splitWS line = [p0, p1, p2, p3] → pyParseInt p3 = some n →
      parse_layout_line line = .parsed p0 ⟨p1, p2, n, 0⟩) ∧
    (∀ line : String, splitWS line ≠ [] →
      (splitWS line).length ≠ 4 → (splitWS line).length ≠ 5 →
      parse_layout_line line = .syntaxErr) := by
  refine ⟨?_, ?_, ?_⟩
  · have h : (1 : ℚ) * (((0 : ℕ) : ℚ) + ((25 : ℕ) : ℚ) / (10 : ℚ) ^ (2 : ℕ))
        = 1/4 := by norm_num
    rw [← h]
    rfl
  · intro line p0 p1 p2 p3 n hs hn
    unfold parse_layout_line
    rw [hs]
    simp only [List.length_cons, List.length_nil]
    norm_num
    rw [hn]
  · intro line hne h4 h5
    have hcond : ¬((splitWS line).length = 4 ∨ (splitWS line).length = 5) := by
      rintro (h | h)
      · exact h4 h
      · exact h5 h
    unfold parse_layout_line
    rw [if_neg (fun h0 => hne (List.length_eq_zero.mp h0)), if_pos hcond]

/-- Witness for C8 at a concrete 4-field line and a concrete 3-field line. -/
theorem parse_layout_line_spec_witness :
    parse_layout_line "layerA out M 1" = .parsed "layerA" ⟨"out", "M", 1, 0⟩ ∧
    parse_layout_line "a b c" = .syntaxErr := by
  obtain ⟨-, h2, h3⟩ := parse_layout_line_spec
  constructor
  · exact h2 "layerA out M 1" "layerA" "out" "M" "1" 1 rfl rfl
  · exact h3 "a b c" (by decide) (by decide) (by decide)

/-- C9: the body of `KenLMPredictor.is_equal(state1, state2)` is
`return state == state2`; the name `state` is bound neither among the
method's locals (`self`, `state1`, `state2`) nor at module level nor among
Python builtins, so for every pair of argument states the call raises
`NameError` and never returns a boolean comparison of the two states. -/
theorem kenlm_is_equal_raises (σ : Type) [DecidableEq σ]
    (self state1 state2 : σ) :
    KenLMPredictor_is_equal self state1 state2
      = PyEvalResult.nameError "state" ∧
    ∀ b : Bool,
      KenLMPredictor_is_equal self state1 state2 ≠ PyEvalResult.ok b := by
  have h : KenLMPredictor_is_equal self state1 state2
      = PyEvalResult.nameError "state" := rfl
  refine ⟨h, fun b hb => ?_⟩
  rw [h] at hb
  cases hb

/-- Witness for C9 at a concrete state type. -/
theorem kenlm_is_equal_raises_witness :
    KenLMPredictor_is_equal (0 : ℕ) 1 2 = PyEvalResult.nameError "state" ∧
    KenLMPredictor_is_equal (0 : ℕ) 1 2 ≠ PyEvalResult.ok true :=
  ⟨(kenlm_is_equal_raises ℕ 0 1 2).1, (kenlm_is_equal_raises ℕ 0 1 2).2 true⟩
